import Mathlib

/-!
Shallow embedding of the MindMitra dashboard logic.

The definitions below are translated from the repository sources:
  * `analyzeMood`, `moodKeywords`, `moodScoreMap`, `handleJournalSubmit`
    and `handleQuickAction` from `src/components/dashboard/MentalHealthCard.tsx`;
  * `getProgressPercentage` and the progress rendering from
    `src/components/dashboard/ExamTrackerCard.tsx`;
  * the add-exam submission handler from
    `src/components/dashboard/AddExamModal.tsx`;
  * the chat-assistant serverless handler and its fallback table from the
    Deno edge function source.

Strings are modelled as lists of characters; JavaScript's
`String.prototype.includes` is modelled by `includesB` (substring test),
`String.prototype.toLowerCase` by mapping `Char.toLower` (the inputs of
interest are ASCII), `String.prototype.trim` by `trimJS`, and `parseInt`
by `parseIntJS` returning `none` for NaN.  Database and network effects
are modelled as explicit operation traces (`StoreOp`) together with a
small database state, with Boolean oracles standing for the success or
failure of each remote call.
-/

namespace MindMitra

/-- The five mood labels, in the declaration order of the source's
`moodKeywords` object literal. -/
inductive Mood where
  | Happy
  | Calm
  | Motivated
  | Stressed
  | Lonely
deriving DecidableEq, Repr, Fintype

/-- The `moodKeywords` table of `analyzeMood`, verbatim from the source. -/
def moodKeywords : Mood → List String
  | .Happy => ["happy", "joy", "excited", "great", "awesome", "wonderful", "amazing", "fantastic", "good", "positive", "cheerful"]
  | .Calm => ["calm", "peaceful", "relaxed", "serene", "tranquil", "quiet", "content", "balanced", "zen", "steady"]
  | .Motivated => ["motivated", "determined", "focused", "energetic", "productive", "driven", "ambitious", "goal", "achieve", "success"]
  | .Stressed => ["stressed", "anxious", "worried", "overwhelmed", "pressure", "deadline", "exam", "nervous", "tense", "frustrated"]
  | .Lonely => ["lonely", "alone", "isolated", "sad", "depressed", "empty", "disconnected", "missing", "solitary", "withdrawn"]

/-- The keyword table as lists of characters. -/
def keywordChars (m : Mood) : List (List Char) :=
  (moodKeywords m).map String.data

/-- The iteration order of `Object.entries(moodKeywords).forEach`: the
declaration order of the object literal. -/
def moodOrder : List Mood := [.Happy, .Calm, .Motivated, .Stressed, .Lonely]

/-- Position of a mood in `moodOrder`. -/
def moodIdx : Mood → Nat
  | .Happy => 0
  | .Calm => 1
  | .Motivated => 2
  | .Stressed => 3
  | .Lonely => 4

/-- The `moodScoreMap` object of `analyzeMood`. -/
def moodScoreMap : Mood → Nat
  | .Calm => 1
  | .Motivated => 2
  | .Happy => 3
  | .Stressed => 4
  | .Lonely => 5

/-- Boolean prefix test on character lists. -/
def isPrefixB : List Char → List Char → Bool
  | [], _ => true
  | _ :: _, [] => false
  | a :: as, b :: bs => a == b && isPrefixB as bs

/-- `includesB pat text` models JavaScript `text.includes(pat)`:
`pat` occurs as a contiguous substring of `text`. -/
def includesB (pat : List Char) : List Char → Bool
  | [] => isPrefixB pat []
  | c :: rest => isPrefixB pat (c :: rest) || includesB pat rest

/-- `String.prototype.toLowerCase` on the ASCII fragment. -/
def toLowerStr (s : List Char) : List Char :=
  s.map Char.toLower

/-- The per-mood score of `analyzeMood`'s inner loop: one increment per
keyword of the mood that occurs in the lowercased text. -/
def keywordScore (lowerText : List Char) (m : Mood) : Nat :=
  (keywordChars m).foldl (fun s k => if includesB k lowerText then s + 1 else s) 0

/-- The `forEach` selection loop of `analyzeMood`: carries the running
`maxScore` (initially 0) and `detectedMood` (initially `Calm`), replacing
them only on a strictly greater score. -/
def selectMood (lowerText : List Char) : List Mood → Nat → Mood → Mood
  | [], _, best => best
  | m :: rest, maxScore, best =>
    let s := keywordScore lowerText m
    if s > maxScore then selectMood lowerText rest s m
    else selectMood lowerText rest maxScore best

/-- `analyzeMood` from `MentalHealthCard.tsx`: lowercase the input, count
keyword hits per mood in declaration order, keep the first strictly
improving mood, and pair the detected mood with its fixed score. -/
def analyzeMood (text : List Char) : Mood × Nat :=
  let lowerText := toLowerStr text
  let detected := selectMood lowerText moodOrder 0 .Calm
  (detected, moodScoreMap detected)

example : analyzeMood "happy".data = (Mood.Happy, 3) := by decide
example : analyzeMood "".data = (Mood.Calm, 1) := by decide
example : analyzeMood "I feel SAD and alone".data = (Mood.Lonely, 5) := by decide

/-- Single-space join of a list of words, used to build texts that consist
of keywords only. -/
def spaceJoin : List (List Char) → List Char
  | [] => []
  | [w] => w
  | w :: ws => w ++ ' ' :: spaceJoin ws

/-! ### Exam progress (`ExamTrackerCard.tsx`)

Marks are modelled as rationals; the source computes with JavaScript
numbers, and every formula below is the source's expression verbatim. -/

/-- `getProgressPercentage(obtained, target)` from `ExamTrackerCard.tsx`:
0 when `obtained` is null, else `min(obtained / target * 100, 100)`. -/
def getProgressPercentage (obtained : Option ℚ) (target : ℚ) : ℚ :=
  match obtained with
  | none => 0
  | some o => min (o / target * 100) 100

/-- The progress value the card renders for one exam row: the non-null
branch calls `getProgressPercentage(obtained_marks, target_marks)`, the
null branch computes `target_marks / max_marks * 100` inline. -/
def displayedProgress (obtained : Option ℚ) (target maxMarks : ℚ) : ℚ :=
  match obtained with
  | some o => getProgressPercentage (some o) target
  | none => target / maxMarks * 100

/-! ### Store effects and handlers -/

/-- Operations the handlers issue against the managed store or the chat
function, in issue order. `readPoints` and `writePoints` are the
`select("wellness_points")` / `update({ wellness_points })` pair; there is
no increment or compare-and-swap operation in the source. -/
inductive StoreOp where
  | insertExam (maxMarks targetMarks : Option Int)
  | insertJournal (content : List Char) (moodScore : Nat) (moodName : Mood)
  | readPoints
  | writePoints (value : Int)
  | invokeChat (message : List Char) (mood : Mood)
deriving DecidableEq, Repr

/-- JavaScript whitespace test for `trim` (the characters relevant here). -/
def isSpaceJS (c : Char) : Bool :=
  c == ' ' || c == '\t' || c == '\n' || c == '\r'

/-- `String.prototype.trim`. -/
def trimJS (s : List Char) : List Char :=
  ((s.dropWhile isSpaceJS).reverse.dropWhile isSpaceJS).reverse

/-- Value of a leading run of decimal digits; `none` when there is none. -/
def parseDigits (s : List Char) : Option Nat :=
  let d := s.takeWhile (fun c => c.isDigit)
  if d = [] then none
  else some (d.foldl (fun n c => n * 10 + (c.toNat - 48)) 0)

/-- `parseInt` (base 10): skip leading whitespace, optional sign, leading
digits; `none` models `NaN`. -/
def parseIntJS (s : List Char) : Option Int :=
  let t := s.dropWhile isSpaceJS
  match t with
  | '-' :: rest => (parseDigits rest).map (fun n => -(n : Int))
  | '+' :: rest => (parseDigits rest).map (fun n => (n : Int))
  | _ => (parseDigits t).map (fun n => (n : Int))

/-- JavaScript `>` on numbers where `none` models `NaN`: any comparison
with `NaN` is false. -/
def jsGT : Option Int → Option Int → Bool
  | some a, some b => a > b
  | _, _ => false

/-- Outcome of the add-exam submission, as surfaced to the user. -/
inductive ExamSubmitResult where
  | validationError (message : String)
  | insertFailed
  | completed
deriving DecidableEq, Repr

/-- `handleSubmit` of `AddExamModal.tsx`.  Inputs: the form fields
(`hasDate` models `formData.date !== null`), whether the exam insert
succeeds, and the profile's current `wellness_points` (`none` when the
row or value is absent).  Returns the issued store operations in order and
the outcome.  The empty-field check precedes parsing; the
`targetMarks > maxMarks` check precedes every store operation; the points
update is `read`, then `write (read + 2)`, and its error is not checked. -/
def handleSubmitExam (subject : List Char) (hasDate : Bool)
    (maxStr targetStr : List Char) (insertOk : Bool)
    (profilePoints : Option Int) : List StoreOp × ExamSubmitResult :=
  if subject = [] ∨ hasDate = false ∨ maxStr = [] ∨ targetStr = [] then
    ([], .validationError "Please fill in all fields")
  else if jsGT (parseIntJS targetStr) (parseIntJS maxStr) then
    ([], .validationError "Target marks cannot be higher than maximum marks")
  else if insertOk = false then
    ([.insertExam (parseIntJS maxStr) (parseIntJS targetStr)], .insertFailed)
  else
    ([.insertExam (parseIntJS maxStr) (parseIntJS targetStr), .readPoints,
      .writePoints (profilePoints.getD 0 + 2)], .completed)

/-- One persisted journal row: content, `mood_score`, `mood_name`. -/
structure JournalEntry where
  content : List Char
  moodScore : Nat
  moodName : Mood
deriving DecidableEq, Repr

/-- The slice of stored state the journal handler touches. -/
structure JournalDB where
  entries : List JournalEntry
  points : Option Int
deriving DecidableEq, Repr

/-- Outcome of a journal submission, as surfaced to the user. -/
inductive JournalResult where
  | skipped
  | errorToast
  | success
deriving DecidableEq, Repr

/-- `handleJournalSubmit` of `MentalHealthCard.tsx`.  Returns the final
stored state, the issued store operations in order, and the outcome.
The handler returns at once on whitespace-only text; otherwise it inserts
the classified entry, then reads `wellness_points` and writes back the
read value (0 when absent) plus 5, then invokes the chat function; each
checked failure throws into the catch block, which only shows an error
toast — nothing already written is undone. -/
def journalSubmit (text : List Char) (db : JournalDB)
    (insertOk pointsOk chatOk : Bool) :
    JournalDB × List StoreOp × JournalResult :=
  if trimJS text = [] then (db, [], .skipped)
  else
    let a := analyzeMood text
    let entry : JournalEntry := ⟨text, a.2, a.1⟩
    let insOp := StoreOp.insertJournal text a.2 a.1
    if insertOk = false then (db, [insOp], .errorToast)
    else
      let db1 : JournalDB := { db with entries := db.entries ++ [entry] }
      let newPoints := db.points.getD 0 + 5
      if pointsOk = false then
        (db1, [insOp, .readPoints, .writePoints newPoints], .errorToast)
      else
        let db2 : JournalDB := { db1 with points := some newPoints }
        if chatOk = false then
          (db2, [insOp, .readPoints, .writePoints newPoints,
                 .invokeChat text a.1], .errorToast)
        else
          (db2, [insOp, .readPoints, .writePoints newPoints,
                 .invokeChat text a.1], .success)

/-- The store interaction of `handleQuickAction` in `MentalHealthCard.tsx`:
read `wellness_points`, write back the read value (0 when absent) plus 3.
Neither call's error object is checked. -/
def quickActionOps (profilePoints : Option Int) : List StoreOp :=
  [.readPoints, .writePoints (profilePoints.getD 0 + 3)]

/-! ### Chat-assistant edge function -/

/-- The `fallbackResponses` object literal of the edge function's catch
block, verbatim. -/
def fallbackResponses (mood : String) : Option String :=
  if mood = "Calm" then
    some "That's wonderful that you're feeling calm! This is a great state for focused studying. Try using this peaceful energy to tackle challenging topics. Remember, maintaining balance is key to long-term success."
  else if mood = "Motivated" then
    some "I love seeing your motivation! Channel this energy into setting specific study goals for today. Break big tasks into smaller wins. You've got this - your determination will take you far!"
  else if mood = "Happy" then
    some "Your happiness is contagious! 😊 This positive energy is perfect for learning new things. Consider sharing this joy with classmates or use it to tackle subjects you usually avoid. Keep spreading those good vibes!"
  else if mood = "Stressed" then
    some "I hear you, and stress before exams is completely normal. Try the 4-7-8 breathing technique: breathe in for 4, hold for 7, out for 8. Take one task at a time. You're stronger than you think!"
  else if mood = "Lonely" then
    some "Feeling lonely can be tough, especially during study periods. Remember, many students feel this way. Consider joining study groups, calling a friend, or visiting common areas. You're not alone in this journey!"
  else none

/-- The generic default of the catch block's `||`. -/
def defaultFallback : String :=
  "Thank you for sharing with me. Remember that it's okay to feel however you're feeling right now. Take things one step at a time, and don't hesitate to reach out for support when you need it. You're doing great! 💙"

/-- `fallbackResponses[mood] || default` of the catch block. -/
def fallbackMessage (mood : String) : String :=
  (fallbackResponses mood).getD defaultFallback

/-- The five mood labels the fallback table recognises. -/
def fallbackMoodNames : List String :=
  ["Calm", "Motivated", "Happy", "Stressed", "Lonely"]

/-- The five canned messages of the fallback table. -/
def cannedMessages : List String :=
  [fallbackMessage "Calm", fallbackMessage "Motivated", fallbackMessage "Happy",
   fallbackMessage "Stressed", fallbackMessage "Lonely"]

/-- The response body of the chat-assistant edge function for a non-OPTIONS
request.  `hasKey` models a configured `OPENAI_API_KEY`, `fetchOk` a
successful upstream call, `upstream` the upstream completion text.  A
missing key or an upstream error throws into the catch block, which
answers with the per-mood fallback. -/
def chatAssistantHandler (hasKey fetchOk : Bool) (upstream : String)
    (mood : String) : String :=
  if hasKey = false then fallbackMessage mood
  else if fetchOk = false then fallbackMessage mood
  else upstream

/-! ### Helper lemmas -/

theorem mood_forall {P : Mood → Prop} :
    (∀ m, P m) ↔ P .Happy ∧ P .Calm ∧ P .Motivated ∧ P .Stressed ∧ P .Lonely := by
  constructor
  · intro h
    exact ⟨h _, h _, h _, h _, h _⟩
  · rintro ⟨h1, h2, h3, h4, h5⟩ m
    cases m <;> assumption

/-- The selection loop over an abstract count function; `selectMood` is an
instance of it.  Keeping the counts abstract keeps the case analysis below
cheap. -/
def selectLoopC (c : Mood → Nat) : List Mood → Nat → Mood → Mood
  | [], _, best => best
  | m :: rest, maxS, best =>
    if c m > maxS then selectLoopC c rest (c m) m
    else selectLoopC c rest maxS best

theorem selectMood_eq_loopC (lt : List Char) :
    ∀ (l : List Mood) (maxS : Nat) (best : Mood),
      selectMood lt l maxS best = selectLoopC (keywordScore lt) l maxS best := by
  intro l
  induction l with
  | nil => intro maxS best; rfl
  | cons m rest ih =>
    intro maxS best
    show (if keywordScore lt m > maxS then selectMood lt rest (keywordScore lt m) m
          else selectMood lt rest maxS best) =
         (if keywordScore lt m > maxS then selectLoopC (keywordScore lt) rest (keywordScore lt m) m
          else selectLoopC (keywordScore lt) rest maxS best)
    rw [ih, ih]

theorem loopC_all_zero {c : Mood → Nat} (h : ∀ m, c m = 0) :
    selectLoopC c moodOrder 0 .Calm = Mood.Calm := by
  simp [selectLoopC, moodOrder, h Mood.Happy, h Mood.Calm, h Mood.Motivated,
    h Mood.Stressed, h Mood.Lonely]

theorem loopC_step_pos {c : Mood → Nat} {m : Mood} {rest : List Mood}
    {maxS : Nat} {best : Mood} (hc : c m > maxS) :
    selectLoopC c (m :: rest) maxS best = selectLoopC c rest (c m) m := by
  simp [selectLoopC, hc]

theorem loopC_step_neg {c : Mood → Nat} {m : Mood} {rest : List Mood}
    {maxS : Nat} {best : Mood} (hc : ¬ c m > maxS) :
    selectLoopC c (m :: rest) maxS best = selectLoopC c rest maxS best := by
  simp [selectLoopC, hc]

/-- Characterisation of the selection loop on any list: either no element
ever beat the incoming `maxS` and the incoming `best` survives, or the
result sits in the list, strictly beats everything before it and the
incoming `maxS`, and is not beaten by anything after it. -/
theorem loopC_split (c : Mood → Nat) :
    ∀ (l : List Mood) (maxS : Nat) (best : Mood),
      (selectLoopC c l maxS best = best ∧ ∀ x ∈ l, c x ≤ maxS) ∨
      (∃ l₁ l₂, l = l₁ ++ selectLoopC c l maxS best :: l₂ ∧
        (∀ x ∈ l₁, c x < c (selectLoopC c l maxS best)) ∧
        (∀ x ∈ l₂, c x ≤ c (selectLoopC c l maxS best)) ∧
        maxS < c (selectLoopC c l maxS best)) := by
  intro l
  induction l with
  | nil =>
    intro maxS best
    left
    exact ⟨rfl, by simp⟩
  | cons m rest ih =>
    intro maxS best
    by_cases hc : c m > maxS
    · rw [loopC_step_pos hc]
      rcases ih (c m) m with ⟨heq, hall⟩ | ⟨l₁, l₂, hsplit, h1, h2, h3⟩
      · right
        refine ⟨[], rest, ?_, by simp, ?_, ?_⟩
        · rw [heq]
          rfl
        · intro x hx
          rw [heq]
          exact hall x hx
        · rw [heq]
          exact hc
      · right
        refine ⟨m :: l₁, l₂, ?_, ?_, h2, ?_⟩
        · rw [List.cons_append, ← hsplit]
        · intro x hx
          rcases List.mem_cons.mp hx with rfl | hx'
          · exact h3
          · exact h1 x hx'
        · exact lt_trans hc h3
    · rw [loopC_step_neg hc]
      rcases ih maxS best with ⟨heq, hall⟩ | ⟨l₁, l₂, hsplit, h1, h2, h3⟩
      · left
        refine ⟨heq, ?_⟩
        intro x hx
        rcases List.mem_cons.mp hx with rfl | hx'
        · omega
        · exact hall x hx'
      · right
        refine ⟨m :: l₁, l₂, ?_, ?_, h2, h3⟩
        · rw [List.cons_append, ← hsplit]
        · intro x hx
          rcases List.mem_cons.mp hx with rfl | hx'
          · omega
          · exact h1 x hx'

theorem mem_moodOrder (m : Mood) : m ∈ moodOrder := by
  cases m <;> simp [moodOrder]

theorem loopC_le (c : Mood → Nat) (m : Mood) :
    c m ≤ c (selectLoopC c moodOrder 0 .Calm) := by
  rcases loopC_split c moodOrder 0 .Calm with ⟨heq, hall⟩ | ⟨l₁, l₂, hsplit, h1, h2, h3⟩
  · have := hall m (mem_moodOrder m)
    omega
  · have hm := mem_moodOrder m
    rw [hsplit] at hm
    rcases List.mem_append.mp hm with hx | hx
    · exact le_of_lt (h1 m hx)
    · rcases List.mem_cons.mp hx with rfl | hx'
      · exact le_refl _
      · exact h2 m hx'

/-- Bridging `moodIdx` and positions: any decomposition of `moodOrder`
around a distinguished element puts every mood of smaller index into the
left part. -/
theorem mem_left_of_idx_lt {l₁ l₂ : List Mood} {r m : Mood}
    (h : moodOrder = l₁ ++ r :: l₂) (hm : moodIdx m < moodIdx r) : m ∈ l₁ := by
  rcases l₁ with _ | ⟨a, l₁⟩
  · simp [moodOrder] at h
    obtain ⟨rfl, rfl⟩ := h
    simp [moodIdx] at hm
  rcases l₁ with _ | ⟨b, l₁⟩
  · simp [moodOrder] at h
    obtain ⟨rfl, rfl, rfl⟩ := h
    cases m <;> simp_all [moodIdx]
  rcases l₁ with _ | ⟨x, l₁⟩
  · simp [moodOrder] at h
    obtain ⟨rfl, rfl, rfl, rfl⟩ := h
    cases m <;> simp_all [moodIdx]
  rcases l₁ with _ | ⟨d, l₁⟩
  · simp [moodOrder] at h
    obtain ⟨rfl, rfl, rfl, rfl, rfl⟩ := h
    cases m <;> simp_all [moodIdx]
  rcases l₁ with _ | ⟨e, l₁⟩
  · simp [moodOrder] at h
    obtain ⟨rfl, rfl, rfl, rfl, rfl, rfl⟩ := h
    cases m <;> simp_all [moodIdx]
  · simp [moodOrder] at h

theorem loopC_first (c : Mood → Nat) (hex : ∃ m, c m ≠ 0)
    (m : Mood) (hlt : moodIdx m < moodIdx (selectLoopC c moodOrder 0 .Calm)) :
    c m < c (selectLoopC c moodOrder 0 .Calm) := by
  rcases loopC_split c moodOrder 0 .Calm with ⟨heq, hall⟩ | ⟨l₁, l₂, hsplit, h1, h2, h3⟩
  · exfalso
    obtain ⟨m0, hm0⟩ := hex
    exact hm0 (Nat.le_zero.mp (hall m0 (mem_moodOrder m0)))
  · exact h1 m (mem_left_of_idx_lt hsplit hlt)

theorem analyzeMood_eq (text : List Char) :
    analyzeMood text =
      (selectLoopC (keywordScore (toLowerStr text)) moodOrder 0 .Calm,
       moodScoreMap (selectLoopC (keywordScore (toLowerStr text)) moodOrder 0 .Calm)) := by
  show (selectMood (toLowerStr text) moodOrder 0 .Calm,
        moodScoreMap (selectMood (toLowerStr text) moodOrder 0 .Calm)) = _
  rw [selectMood_eq_loopC]

theorem analyze_all_zero {text : List Char}
    (h : ∀ m, keywordScore (toLowerStr text) m = 0) :
    analyzeMood text = (Mood.Calm, 1) := by
  rw [analyzeMood_eq, loopC_all_zero h]
  rfl

theorem analyze_le (text : List Char) (m : Mood) :
    keywordScore (toLowerStr text) m ≤
      keywordScore (toLowerStr text) (analyzeMood text).1 := by
  rw [analyzeMood_eq]
  exact loopC_le _ m

theorem analyze_first (text : List Char)
    (hex : ∃ m, keywordScore (toLowerStr text) m ≠ 0) (m : Mood)
    (hlt : moodIdx m < moodIdx (analyzeMood text).1) :
    keywordScore (toLowerStr text) m <
      keywordScore (toLowerStr text) (analyzeMood text).1 := by
  rw [analyzeMood_eq] at hlt ⊢
  exact loopC_first _ hex m hlt

theorem analyze_snd (text : List Char) :
    (analyzeMood text).2 = moodScoreMap (analyzeMood text).1 := by
  rw [analyzeMood_eq]

/-! ### Substring lemmas connecting `includesB` to `List.IsInfix` -/

theorem isPrefixB_iff (p t : List Char) : isPrefixB p t = true ↔ p <+: t := by
  induction p generalizing t with
  | nil =>
    simp [isPrefixB]
  | cons a as ih =>
    cases t with
    | nil => simp [isPrefixB]
    | cons b bs => simp [isPrefixB, ih, List.cons_prefix_cons, And.comm]

theorem includesB_iff (p t : List Char) : includesB p t = true ↔ p <:+: t := by
  induction t with
  | nil =>
    show isPrefixB p [] = true ↔ _
    simp [isPrefixB_iff]
  | cons c cs ih =>
    show (isPrefixB p (c :: cs) || includesB p cs) = true ↔ _
    simp [isPrefixB_iff, ih, List.infix_cons_iff]

theorem pref_of_append_cons {k a b : List Char} {c : Char}
    (hc : c ∉ k) (h : k <+: a ++ c :: b) : k <+: a := by
  have ha : a <+: a ++ c :: b := List.prefix_append a (c :: b)
  rcases List.prefix_or_prefix_of_prefix h ha with h1 | h2
  · exact h1
  · obtain ⟨r, hr⟩ := h2
    cases r with
    | nil =>
      have : k = a := by rw [← hr, List.append_nil]
      rw [this]
    | cons y ys =>
      exfalso
      rw [← hr] at h hc
      rw [List.prefix_append_right_inj] at h
      have hy : y = c := (List.cons_prefix_cons.mp h).1
      exact hc (by simp [hy])

theorem infix_of_append_cons {k a b : List Char} {c : Char}
    (hk : k ≠ []) (hc : c ∉ k) (h : k <:+: a ++ c :: b) :
    k <:+: a ∨ k <:+: b := by
  induction a with
  | nil =>
    simp only [List.nil_append] at h
    rcases List.infix_cons_iff.mp h with hp | hi
    · exfalso
      cases k with
      | nil => exact hk rfl
      | cons x xs =>
        have hx : x = c := (List.cons_prefix_cons.mp hp).1
        exact hc (by simp [hx])
    · exact Or.inr hi
  | cons x a' ih =>
    rcases List.infix_cons_iff.mp (by simpa using h) with hp | hi
    · have hpre : k <+: x :: a' :=
        pref_of_append_cons hc (by simpa using hp)
      exact Or.inl (List.IsPrefix.isInfix hpre)
    · rcases ih hi with h1 | h2
      · exact Or.inl (List.infix_cons_iff.mpr (Or.inr h1))
      · exact Or.inr h2

/-! ### Keyword facts (finite checks) and `spaceJoin` lemmas -/

theorem kw_lower_all (m : Mood) :
    (keywordChars m).all (fun w => toLowerStr w == w) = true := by
  cases m <;> decide

theorem kw_shape_all (m : Mood) :
    (keywordChars m).all
      (fun w => !w.isEmpty && w.all (fun ch => !(ch == ' '))) = true := by
  cases m <;> decide

theorem kw_cross_all (m m' : Mood) (hne : m ≠ m') :
    (keywordChars m').all
      (fun k => (keywordChars m).all (fun w => !includesB k w)) = true := by
  cases m <;> cases m' <;> first | (exact absurd rfl hne) | decide

theorem kw_lower {m : Mood} {w : List Char} (hw : w ∈ keywordChars m) :
    toLowerStr w = w := by
  have := List.all_eq_true.mp (kw_lower_all m) w hw
  exact eq_of_beq this

theorem kw_ne_nil {m : Mood} {w : List Char} (hw : w ∈ keywordChars m) :
    w ≠ [] := by
  have hb := (List.all_eq_true.mp (kw_shape_all m) w hw)
  simp only [Bool.and_eq_true] at hb
  intro hnil
  rw [hnil] at hb
  simp at hb

theorem kw_no_space {m : Mood} {w : List Char} (hw : w ∈ keywordChars m) :
    (' ' : Char) ∉ w := by
  have hb := (List.all_eq_true.mp (kw_shape_all m) w hw)
  simp only [Bool.and_eq_true] at hb
  intro hmem
  have := List.all_eq_true.mp hb.2 _ hmem
  simp at this

theorem kw_cross {m m' : Mood} (hne : m ≠ m') {k w : List Char}
    (hk : k ∈ keywordChars m') (hw : w ∈ keywordChars m) :
    ¬ k <:+: w := by
  intro hinf
  have hall := List.all_eq_true.mp (kw_cross_all m m' hne) k hk
  have := List.all_eq_true.mp hall w hw
  rw [Bool.not_eq_eq_eq_not, Bool.not_true] at this
  rw [← includesB_iff] at hinf
  rw [hinf] at this
  cases this

theorem spaceJoin_cons₂ (w v : List Char) (ws : List (List Char)) :
    spaceJoin (w :: v :: ws) = w ++ ' ' :: spaceJoin (v :: ws) := rfl

theorem mem_infix_spaceJoin {w : List Char} {ws : List (List Char)}
    (h : w ∈ ws) : w <:+: spaceJoin ws := by
  induction ws with
  | nil => cases h
  | cons v vs ih =>
    cases vs with
    | nil =>
      have : w = v := by simpa using h
      rw [this]
      exact List.infix_rfl
    | cons v' vs' =>
      rcases List.mem_cons.mp h with rfl | hmem
      · rw [spaceJoin_cons₂]
        exact List.IsPrefix.isInfix (List.prefix_append w _)
      · have h1 := ih hmem
        have h2 : spaceJoin (v' :: vs') <:+: spaceJoin (v :: v' :: vs') :=
          ⟨v ++ [' '], [], by simp [spaceJoin_cons₂]⟩
        exact h1.trans h2

theorem infix_spaceJoin_mem {k : List Char} {ws : List (List Char)}
    (hk : k ≠ []) (hc : (' ' : Char) ∉ k) (h : k <:+: spaceJoin ws) :
    ∃ w ∈ ws, k <:+: w := by
  induction ws with
  | nil =>
    exfalso
    have : k = [] := by simpa [spaceJoin] using h
    exact hk this
  | cons v vs ih =>
    cases vs with
    | nil => exact ⟨v, by simp, by simpa [spaceJoin] using h⟩
    | cons v' vs' =>
      rw [spaceJoin_cons₂] at h
      rcases infix_of_append_cons hk hc h with h1 | h2
      · exact ⟨v, by simp, h1⟩
      · obtain ⟨w, hw, hkw⟩ := ih h2
        exact ⟨w, List.mem_cons_of_mem _ hw, hkw⟩

theorem toLowerStr_append (a b : List Char) :
    toLowerStr (a ++ b) = toLowerStr a ++ toLowerStr b := by
  simp [toLowerStr]

theorem toLowerStr_spaceJoin {m : Mood} {ws : List (List Char)}
    (h : ∀ w ∈ ws, w ∈ keywordChars m) :
    toLowerStr (spaceJoin ws) = spaceJoin ws := by
  induction ws with
  | nil => rfl
  | cons v vs ih =>
    cases vs with
    | nil =>
      show toLowerStr v = v
      exact kw_lower (h v (by simp))
    | cons v' vs' =>
      rw [spaceJoin_cons₂, toLowerStr_append]
      rw [kw_lower (h v (by simp))]
      have : toLowerStr (' ' :: spaceJoin (v' :: vs')) =
          ' ' :: toLowerStr (spaceJoin (v' :: vs')) := by
        simp [toLowerStr]
      rw [this, ih (fun w hw => h w (List.mem_cons_of_mem _ hw))]

theorem foldl_count (p : List Char → Bool) :
    ∀ (l : List (List Char)) (n : Nat),
      l.foldl (fun s k => if p k then s + 1 else s) n = n + l.countP p := by
  intro l
  induction l with
  | nil => intro n; simp
  | cons a l ih =>
    intro n
    cases hpa : p a
    · simp [List.countP_cons, hpa, ih]
    · simp [List.countP_cons, hpa, ih]
      omega

theorem keywordScore_countP (lt : List Char) (m : Mood) :
    keywordScore lt m = (keywordChars m).countP (fun k => includesB k lt) := by
  show (keywordChars m).foldl (fun s k => if includesB k lt then s + 1 else s) 0 = _
  rw [foldl_count, Nat.zero_add]

theorem score_own_pos {m : Mood} {w : List Char} {ws : List (List Char)}
    (hmem : w ∈ ws) (hw : w ∈ keywordChars m) :
    1 ≤ keywordScore (spaceJoin ws) m := by
  rw [keywordScore_countP]
  apply Nat.succ_le_of_lt
  rw [List.countP_pos_iff]
  exact ⟨w, hw, (includesB_iff _ _).mpr (mem_infix_spaceJoin hmem)⟩

theorem score_other_zero {m m' : Mood} (hne : m ≠ m') {ws : List (List Char)}
    (hmem : ∀ w ∈ ws, w ∈ keywordChars m) :
    keywordScore (spaceJoin ws) m' = 0 := by
  rw [keywordScore_countP]
  rw [List.countP_eq_zero]
  intro k hk
  intro hinc
  have hinf : k <:+: spaceJoin ws := (includesB_iff _ _).mp hinc
  obtain ⟨w, hwmem, hkw⟩ :=
    infix_spaceJoin_mem (kw_ne_nil hk) (kw_no_space hk) hinf
  exact kw_cross hne hk (hmem w hwmem) hkw

/-! ### Claim theorems: the mood classifier -/

/-- C1: for every input text, `analyzeMood` returns the mood whose
keyword-match count is strictly greatest; on ties the mood coming first in
the fixed iteration order Happy, Calm, Motivated, Stressed, Lonely wins
(every mood of strictly smaller index has a strictly smaller count); and
when all five counts are zero it returns `Calm` with score 1.  The second
component is always the fixed score of the returned mood. -/
theorem mood_classifier_first_strict_max (text : List Char) :
    ((∀ m, keywordScore (toLowerStr text) m = 0) →
      analyzeMood text = (Mood.Calm, 1)) ∧
    (∀ m, keywordScore (toLowerStr text) m ≤
      keywordScore (toLowerStr text) (analyzeMood text).1) ∧
    ((∃ m, keywordScore (toLowerStr text) m ≠ 0) →
      ∀ m, moodIdx m < moodIdx (analyzeMood text).1 →
        keywordScore (toLowerStr text) m <
          keywordScore (toLowerStr text) (analyzeMood text).1) ∧
    (analyzeMood text).2 = moodScoreMap (analyzeMood text).1 :=
  ⟨fun h => analyze_all_zero h, analyze_le text,
   fun hex m hlt => analyze_first text hex m hlt, analyze_snd text⟩

/-- C2: a text that is a space-separated sequence of keywords taken from a
single mood's keyword set is classified as that mood, with the mood's
fixed score. -/
theorem single_mood_text_classified (m : Mood) (ws : List (List Char))
    (hne : ws ≠ []) (hmem : ∀ w ∈ ws, w ∈ keywordChars m) :
    analyzeMood (spaceJoin ws) = (m, moodScoreMap m) := by
  have hlow : toLowerStr (spaceJoin ws) = spaceJoin ws := toLowerStr_spaceJoin hmem
  obtain ⟨w, ws', rfl⟩ : ∃ w ws', ws = w :: ws' := by
    cases ws with
    | nil => exact absurd rfl hne
    | cons w ws' => exact ⟨w, ws', rfl⟩
  have hpos : 1 ≤ keywordScore (spaceJoin (w :: ws')) m :=
    score_own_pos (by simp) (hmem w (by simp))
  have hfst : (analyzeMood (spaceJoin (w :: ws'))).1 = m := by
    by_contra hne'
    have hzero : keywordScore (spaceJoin (w :: ws'))
        (analyzeMood (spaceJoin (w :: ws'))).1 = 0 :=
      score_other_zero (fun he => hne' he.symm) hmem
    have hle := analyze_le (spaceJoin (w :: ws')) m
    rw [hlow, hzero] at hle
    omega
  have hsnd := analyze_snd (spaceJoin (w :: ws'))
  rw [hfst] at hsnd
  exact Prod.ext hfst hsnd

/-- C2 witness: the concrete text "sad lonely" (two keywords of `Lonely`)
is classified as `Lonely` with score 5. -/
theorem single_mood_text_classified_witness :
    analyzeMood (spaceJoin ["sad".data, "lonely".data]) = (Mood.Lonely, 5) :=
  single_mood_text_classified Mood.Lonely ["sad".data, "lonely".data]
    (by decide) (by decide)

/-- C3 counterexample: not every mood has exactly 10 keywords — `Happy`
has 11. -/
theorem not_all_keyword_sets_have_ten :
    ¬ ∀ m : Mood, (moodKeywords m).length = 10 := by
  intro h
  have := h Mood.Happy
  simp [moodKeywords] at this

/-- C3 amended: the classifier maintains a fixed table of lowercase
keyword stems, with 11 keywords for Happy and exactly 10 for each of
Calm, Motivated, Stressed and Lonely. -/
theorem keyword_set_sizes_and_lowercase :
    moodOrder.map (fun m => (moodKeywords m).length) = [11, 10, 10, 10, 10] ∧
    ∀ m : Mood, (keywordChars m).all (fun w => w.all Char.isLower) = true := by
  refine ⟨by decide, fun m => ?_⟩
  cases m <;> decide

/-- C10: the classifier is case-insensitive — its result depends only on
the lowercased input, so two texts with equal lowercasings classify
identically. -/
theorem classifier_case_insensitive (t t' : List Char)
    (h : toLowerStr t = toLowerStr t') : analyzeMood t = analyzeMood t' := by
  rw [analyzeMood_eq, analyzeMood_eq, h]

/-- C10 witness: concrete texts differing only in letter case. -/
theorem classifier_case_insensitive_witness :
    analyzeMood "HAPPY Day".data = analyzeMood "happy day".data :=
  classifier_case_insensitive "HAPPY Day".data "happy day".data (by decide)

/-! ### Claim theorems: exam progress -/

/-- C4: the rendered progress is `targetMarks / maxMarks * 100` when
`obtainedMarks` is null and `min(obtainedMarks / targetMarks * 100, 100)`
when present; in particular null/80/100 shows 80 and 95/80 shows 100. -/
theorem exam_progress_formula :
    (∀ target maxM : ℚ, displayedProgress none target maxM = target / maxM * 100) ∧
    (∀ o target maxM : ℚ,
      displayedProgress (some o) target maxM = min (o / target * 100) 100) ∧
    displayedProgress none 80 100 = 80 ∧
    displayedProgress (some 95) 80 100 = 100 := by
  refine ⟨fun t mx => rfl, fun o t mx => rfl, ?_, ?_⟩
  · show (80 : ℚ) / 100 * 100 = 80
    norm_num
  · show min ((95 : ℚ) / 80 * 100) 100 = 100
    rw [min_eq_right]
    norm_num

/-- C9: the helper `getProgressPercentage` returns 0 whenever
`obtainedMarks` is null, for every target; the target/max percentage of
the null branch is a separate formula in the rendering. -/
theorem progress_helper_zero_on_null :
    (∀ target : ℚ, getProgressPercentage none target = 0) ∧
    (∀ target maxM : ℚ, displayedProgress none target maxM = target / maxM * 100) :=
  ⟨fun _ => rfl, fun _ _ => rfl⟩

/-! ### Claim theorems: add-exam validation -/

/-- C5: whenever the parsed target marks exceed the parsed maximum marks,
the add-exam submission is rejected with an error notification and no
store operation (neither insert nor points write) is issued. -/
theorem add_exam_rejected_on_target_gt_max
    (subject : List Char) (hasDate : Bool) (maxStr targetStr : List Char)
    (insertOk : Bool) (profilePoints : Option Int)
    (hgt : jsGT (parseIntJS targetStr) (parseIntJS maxStr) = true) :
    (handleSubmitExam subject hasDate maxStr targetStr insertOk profilePoints).1 = [] ∧
    ∃ msg, (handleSubmitExam subject hasDate maxStr targetStr insertOk
        profilePoints).2 = ExamSubmitResult.validationError msg := by
  unfold handleSubmitExam
  by_cases h1 : subject = [] ∨ hasDate = false ∨ maxStr = [] ∨ targetStr = []
  · rw [if_pos h1]
    exact ⟨rfl, "Please fill in all fields", rfl⟩
  · rw [if_neg h1, if_pos hgt]
    exact ⟨rfl, "Target marks cannot be higher than maximum marks", rfl⟩

/-- C5 witness: target 120 over maximum 100 is rejected without writes. -/
theorem add_exam_rejected_witness :
    (handleSubmitExam "Math".data true "100".data "120".data true (some 7)).1 = [] ∧
    ∃ msg, (handleSubmitExam "Math".data true "100".data "120".data true
        (some 7)).2 = ExamSubmitResult.validationError msg :=
  add_exam_rejected_on_target_gt_max "Math".data true "100".data "120".data
    true (some 7) (by decide)

/-! ### Claim theorems: chat fallback -/

/-- C6: on any failure (missing API credential or upstream error) the
chat-assistant handler answers with the per-mood fallback: one of the five
static canned messages when the supplied mood is one of the five labels,
and the generic default message for any other mood value. -/
theorem chat_fallback_on_failure (hasKey fetchOk : Bool)
    (upstream mood : String) (hfail : hasKey = false ∨ fetchOk = false) :
    chatAssistantHandler hasKey fetchOk upstream mood = fallbackMessage mood ∧
    (mood ∈ fallbackMoodNames → fallbackMessage mood ∈ cannedMessages) ∧
    (mood ∉ fallbackMoodNames → fallbackMessage mood = defaultFallback) := by
  refine ⟨?_, ?_, ?_⟩
  · rcases hfail with rfl | hf
    · rfl
    · cases hasKey
      · rfl
      · rw [hf]
        rfl
  · intro hm
    have : mood = "Calm" ∨ mood = "Motivated" ∨ mood = "Happy" ∨
        mood = "Stressed" ∨ mood = "Lonely" := by
      simpa [fallbackMoodNames] using hm
    rcases this with rfl | rfl | rfl | rfl | rfl <;> simp [cannedMessages]
  · intro hm
    have hnone : fallbackResponses mood = none := by
      unfold fallbackResponses
      split_ifs with h1 h2 h3 h4 h5
      · exact absurd (by simp [fallbackMoodNames, h1]) hm
      · exact absurd (by simp [fallbackMoodNames, h2]) hm
      · exact absurd (by simp [fallbackMoodNames, h3]) hm
      · exact absurd (by simp [fallbackMoodNames, h4]) hm
      · exact absurd (by simp [fallbackMoodNames, h5]) hm
      · rfl
    show (fallbackResponses mood).getD defaultFallback = defaultFallback
    rw [hnone]
    rfl

/-- C6 witness: with no API key configured and an unrecognised mood label,
the handler answers the generic default; for mood "Stressed" it answers a
canned message. -/
theorem chat_fallback_on_failure_witness :
    chatAssistantHandler false true "unused" "Stressed" =
      fallbackMessage "Stressed" ∧
    ("Stressed" ∈ fallbackMoodNames →
      fallbackMessage "Stressed" ∈ cannedMessages) ∧
    ("Stressed" ∉ fallbackMoodNames →
      fallbackMessage "Stressed" = defaultFallback) :=
  chat_fallback_on_failure false true "unused" "Stressed" (Or.inl rfl)

/-! ### Claim theorems: points ledger and journal persistence -/

/-- C7: every rewarded action updates `wellness_points` by reading the
current value and writing back that value plus a fixed delta — +5 for a
journal submission, +3 for a quick-action exercise, +2 for adding an
exam.  Each handler's trace holds the read followed by a write of the
read value (0 when absent) plus the delta; no other points operation
exists in the traces. -/
theorem points_read_modify_write
    (text : List Char) (db : JournalDB) (pointsOk chatOk : Bool)
    (subject maxStr targetStr : List Char) (profilePoints : Option Int)
    (htext : trimJS text ≠ []) (hsub : subject ≠ [])
    (hmax : maxStr ≠ []) (htar : targetStr ≠ [])
    (hgt : jsGT (parseIntJS targetStr) (parseIntJS maxStr) = false) :
    [StoreOp.readPoints, StoreOp.writePoints (db.points.getD 0 + 5)] <:+:
      (journalSubmit text db true pointsOk chatOk).2.1 ∧
    quickActionOps profilePoints =
      [StoreOp.readPoints, StoreOp.writePoints (profilePoints.getD 0 + 3)] ∧
    (handleSubmitExam subject true maxStr targetStr true profilePoints).1 =
      [StoreOp.insertExam (parseIntJS maxStr) (parseIntJS targetStr),
       StoreOp.readPoints, StoreOp.writePoints (profilePoints.getD 0 + 2)] := by
  refine ⟨?_, rfl, ?_⟩
  · unfold journalSubmit
    rw [if_neg htext]
    cases pointsOk
    · exact ⟨[StoreOp.insertJournal text (analyzeMood text).2 (analyzeMood text).1],
        [], rfl⟩
    · cases chatOk
      · exact ⟨[StoreOp.insertJournal text (analyzeMood text).2 (analyzeMood text).1],
          [StoreOp.invokeChat text (analyzeMood text).1], rfl⟩
      · exact ⟨[StoreOp.insertJournal text (analyzeMood text).2 (analyzeMood text).1],
          [StoreOp.invokeChat text (analyzeMood text).1], rfl⟩
  · unfold handleSubmitExam
    rw [if_neg (by simp [hsub, hmax, htar])]
    rw [if_neg (by simp [hgt])]
    rw [if_neg (by simp)]

/-- C7 witness: concrete traces for all three handlers. -/
theorem points_read_modify_write_witness :
    [StoreOp.readPoints, StoreOp.writePoints ((some (10 : Int)).getD 0 + 5)] <:+:
      (journalSubmit "happy".data ⟨[], some 10⟩ true true true).2.1 ∧
    quickActionOps (some 10) =
      [StoreOp.readPoints, StoreOp.writePoints ((some (10 : Int)).getD 0 + 3)] ∧
    (handleSubmitExam "Math".data true "100".data "80".data true (some 10)).1 =
      [StoreOp.insertExam (parseIntJS "100".data) (parseIntJS "80".data),
       StoreOp.readPoints, StoreOp.writePoints ((some (10 : Int)).getD 0 + 2)] :=
  points_read_modify_write "happy".data ⟨[], some 10⟩ true true
    "Math".data "100".data "80".data (some 10)
    (by decide) (by decide) (by decide) (by decide) (by decide)

/-- C8: when the journal-entry insert succeeds and a later step of the
same action fails (the points update or the chat call), the saved entry
remains committed — the final entries are exactly the old entries plus
the new one, nothing is deleted — and the failure only produces an error
notification. -/
theorem journal_entry_kept_on_later_failure
    (text : List Char) (db : JournalDB) (pointsOk chatOk : Bool)
    (htext : trimJS text ≠ []) (hfail : pointsOk = false ∨ chatOk = false) :
    (journalSubmit text db true pointsOk chatOk).1.entries =
      db.entries ++ [⟨text, (analyzeMood text).2, (analyzeMood text).1⟩] ∧
    (journalSubmit text db true pointsOk chatOk).2.2 = JournalResult.errorToast := by
  unfold journalSubmit
  rw [if_neg htext]
  rcases hfail with rfl | rfl
  · cases chatOk <;> exact ⟨rfl, rfl⟩
  · cases pointsOk <;> exact ⟨rfl, rfl⟩

/-- C8 witness: a concrete submission whose points update fails keeps the
inserted entry and reports an error. -/
theorem journal_entry_kept_witness :
    (journalSubmit "happy".data ⟨[], some 10⟩ true false true).1.entries =
      ([] : List JournalEntry) ++
        [⟨"happy".data, (analyzeMood "happy".data).2, (analyzeMood "happy".data).1⟩] ∧
    (journalSubmit "happy".data ⟨[], some 10⟩ true false true).2.2 =
      JournalResult.errorToast :=
  journal_entry_kept_on_later_failure "happy".data ⟨[], some 10⟩ false true
    (by decide) (Or.inl rfl)

end MindMitra
